import Mathlib

/-!
Verification development for an append-only, log-structured key/value store
(`lib.rs`: record codec, log store) fronted by a RESP-style frame codec and
command mapper (`server_helpers.rs`) driven by a per-connection handler
(`akv_mem.rs`).

Modelling conventions, fixed throughout:
* A Rust `Vec<u8>` / `Bytes` / UTF-8 `String` payload is a `List Nat` whose
  elements denote bytes (values below 256 wherever the source produced them).
  `String::from_utf8_lossy` is modelled as the identity on the underlying
  bytes: on valid UTF-8 it is the identity, and every comparison the source
  performs against a concrete ASCII literal (such as a verb or the bytes
  "-1") can only succeed when the bytes are exactly that ASCII literal,
  since the replacement character introduced on invalid input is not ASCII.
* The backing data file is a byte list together with the kernel file offset
  (`cursor`) of the single shared `File` handle; the file is opened in
  append mode, so writes always land at end-of-file and leave the cursor at
  the new end-of-file, while `seek` moves the cursor freely.  A `get_at`
  reads through a fresh `BufReader` (capacity 8 KiB), whose read-ahead is
  modelled by `bufCursorAfter`: the first header read fills the buffer with
  up to 8 KiB, the payload tail then either comes out of that buffer, or
  triggers one more fill when the outstanding request is smaller than the
  buffer capacity, or bypasses the buffer with exact reads when it is at
  least the capacity; kernel reads on the in-memory file return the whole
  requested range up to end-of-file in one call.  `load` is unaffected by
  read-ahead: its per-iteration `seek(SeekFrom::Current(0))` reports the
  buffered reader's logical position, and the failed header read that ends
  the replay leaves the underlying cursor at end-of-file.
* Machine integers are `Nat` with explicit `% 2^32` at the points where the
  source casts to `u32`; `u32` / `u64` parsing failure (including overflow)
  is modelled by an explicit bound check.
* Fallible operations return explicit result types; a dedicated constructor
  records a panic (`panic!`, `unwrap`, out-of-bounds `split_off`, `get_u8`
  past the end of a cursor), which is distinct from returning an error.
-/

abbrev ByteString := List Nat

/-! ## CRC-32/IEEE (crc crate, `crc32::checksum_ieee`) -/

def crc32Round (c : Nat) : Nat :=
  if c % 2 = 1 then (c / 2) ^^^ 0xEDB88320 else c / 2

def crc32Byte (c b : Nat) : Nat :=
  crc32Round (crc32Round (crc32Round (crc32Round
    (crc32Round (crc32Round (crc32Round (crc32Round (c ^^^ (b % 256)))))))))

def crc32 (data : ByteString) : Nat :=
  (data.foldl crc32Byte 0xFFFFFFFF) ^^^ 0xFFFFFFFF

/-! ## Little-endian u32 encode/decode (byteorder crate) -/

def u32le (n : Nat) : ByteString :=
  [n % 256, n / 256 % 256, n / 65536 % 256, n / 16777216 % 256]

def readU32 (l : ByteString) : Nat :=
  (l.getD 0 0) % 256 + 256 * ((l.getD 1 0) % 256)
    + 65536 * ((l.getD 2 0) % 256) + 16777216 * ((l.getD 3 0) % 256)

/-! ## Record codec (`lib.rs`) -/

structure KeyValuePair where
  key : ByteString
  value : ByteString
deriving DecidableEq, Repr

/-- The byte sequence `insert_ignoring_index` appends for one record:
checksum, key length and value length as little-endian `u32` (the source
casts `usize` lengths with `as u32`, hence the implicit `% 2^32` inside
`u32le`), then the raw key and value bytes. -/
def encodeRecord (key value : ByteString) : ByteString :=
  u32le (crc32 (key ++ value)) ++ u32le key.length ++ u32le value.length
    ++ key ++ value

inductive RecordResult where
  | ok (kv : KeyValuePair) (consumed : Nat)
  | eofErr
  | panicked
deriving DecidableEq, Repr

/-- `process_record` decoding one record from the byte stream `l`.
The three header reads use `read_exact`, which fails with `UnexpectedEof`
whenever fewer than 12 bytes remain (also mid-header).  The payload read is
`take(data_len).read_to_end`, which succeeds even when fewer than
`data_len` bytes remain; a checksum mismatch then hits the source's
`panic!`, as does `split_off(key_len)` when `key_len` exceeds the data
actually read.  `key_len + val_len` is `u32` addition (release-mode
wrap-around, hence `% 2^32`).  `consumed` is the number of stream bytes
read. -/
def process_record (l : ByteString) : RecordResult :=
  if l.length < 12 then .eofErr
  else
    let saved_checksum := readU32 l
    let key_len := readU32 (l.drop 4)
    let val_len := readU32 (l.drop 8)
    let data_len := (key_len + val_len) % 4294967296
    let data := (l.drop 12).take data_len
    if crc32 data ≠ saved_checksum then .panicked
    else if data.length < key_len then .panicked
    else .ok ⟨data.take key_len, data.drop key_len⟩ (12 + data.length)

/-! ## Log store (`lib.rs`, `AKVMEM`) -/

/-- In-memory state of the store: backing file bytes, the shared file
handle's offset, and the `HashMap` index modelled as an association list
with at most one binding per key. -/
structure AKVMEM where
  file : ByteString
  cursor : Nat
  index : List (ByteString × Nat)
deriving DecidableEq, Repr

def indexLookup : List (ByteString × Nat) → ByteString → Option Nat
  | [], _ => none
  | (k, v) :: t, key => if k = key then some v else indexLookup t key

def indexInsert (l : List (ByteString × Nat)) (k : ByteString) (v : Nat) :
    List (ByteString × Nat) :=
  (k, v) :: l.filter (fun p => decide (p.1 ≠ k))

def indexRemove (l : List (ByteString × Nat)) (k : ByteString) :
    List (ByteString × Nat) :=
  l.filter (fun p => decide (p.1 ≠ k))

/-- `open`: fresh read/write/create/append handle, offset 0, empty index. -/
def openStore (file : ByteString) : AKVMEM := ⟨file, 0, []⟩

structure InsertResult where
  offset : Nat
  st : AKVMEM
deriving DecidableEq, Repr

/-- `AKVMEM::insert_ignoring_index`.  The returned offset is
`current_position = f.seek(SeekFrom::Current(0))`, captured *before* the
seek to `SeekFrom::End(0)`: it is the cursor wherever the previous
operation left it, not necessarily end-of-file.  The record itself is
appended at end-of-file (append-mode handle) and the flushed write leaves
the cursor at the new end-of-file. -/
def insert_ignoring_index (st : AKVMEM) (key value : ByteString) :
    InsertResult :=
  let current_position := st.cursor
  let file := st.file ++ encodeRecord key value
  ⟨current_position, ⟨file, file.length, st.index⟩⟩

/-- `AKVMEM::insert`: append, then bind the key to the returned offset. -/
def AKVMEM.insert (st : AKVMEM) (key value : ByteString) : AKVMEM :=
  let r := insert_ignoring_index st key value
  ⟨r.st.file, r.st.cursor, indexInsert r.st.index key r.offset⟩

/-- `AKVMEM::update` is the same code as `insert`. -/
def AKVMEM.update (st : AKVMEM) (key value : ByteString) : AKVMEM :=
  st.insert key value

/-- `AKVMEM::delete`: remove the key from the index, then `insert` the
key with an empty value.  Note that `insert` (not
`insert_ignoring_index`) is called, so the index entry is re-created. -/
def AKVMEM.delete (st : AKVMEM) (key : ByteString) : AKVMEM :=
  let st1 : AKVMEM := ⟨st.file, st.cursor, indexRemove st.index key⟩
  st1.insert key []

inductive ReadResult where
  | ok (kv : KeyValuePair) (st : AKVMEM)
  | ioErr (st : AKVMEM)
  | panicked
deriving DecidableEq, Repr

/-- Underlying file offset after one record was decoded through a fresh
`BufReader` with an 8192-byte buffer that was seeked to `position` on a
file of length `L`; `consumed` is the number of bytes the decode logically
consumed.  The first header read fills the buffer with `min 8192 (L -
position)` bytes.  If the whole record fits in that fill, the cursor stays
at the fill's end.  Otherwise the outstanding payload request (the
`Vec::with_capacity` spare capacity, capped by `Take`) either reaches the
buffer capacity — then `BufReader::read` bypasses its buffer and the exact
reads end at `position + consumed` — or it is smaller and one more fill of
up to 8192 bytes provides it.  Seeking at or past end-of-file reads
nothing and leaves the cursor where the seek put it. -/
def bufCursorAfter (L position consumed : Nat) : Nat :=
  if L ≤ position then position
  else
    let c1 := min L (position + 8192)
    if consumed ≤ c1 - position then c1
    else if 8192 ≤ consumed - (c1 - position) then position + consumed
    else min L (c1 + 8192)

/-- `AKVMEM::get_at`: seek to `position`, decode one record through a
fresh `BufReader`; the buffered reads leave the shared cursor at
`bufCursorAfter` (also on the failed header read, whose single fill
reaches end-of-file since fewer than 12 bytes remained). -/
def get_at (st : AKVMEM) (position : Nat) : ReadResult :=
  match process_record (st.file.drop position) with
  | .ok kv consumed =>
    .ok kv ⟨st.file, bufCursorAfter st.file.length position consumed, st.index⟩
  | .eofErr => .ioErr ⟨st.file, bufCursorAfter st.file.length position 0, st.index⟩
  | .panicked => .panicked

inductive GetResult where
  | ok (val : Option ByteString) (st : AKVMEM)
  | ioErr (st : AKVMEM)
  | panicked
deriving DecidableEq, Repr

/-- `AKVMEM::get`: index lookup; on a hit, decode one record at the stored
offset and return its value.  A missing key is `Ok(None)` and touches
neither the file nor the cursor. -/
def AKVMEM.get (st : AKVMEM) (key : ByteString) : GetResult :=
  match indexLookup st.index key with
  | none => .ok none st
  | some position =>
    match get_at st position with
    | .ok kv st1 => .ok (some kv.value) st1
    | .ioErr st1 => .ioErr st1
    | .panicked => .panicked

inductive LoadResult where
  | ok (st : AKVMEM)
  | panicked
deriving DecidableEq, Repr

/-- One replay loop of `AKVMEM::load`, with fuel.  Each iteration records
the current position, decodes one record there and binds the key to that
position; `UnexpectedEof` from `process_record` breaks the loop cleanly
(any other `process_record` outcome on an in-memory file is the corruption
or `split_off` panic).  After the final failed read the handle's cursor
sits at end-of-file.  The fuel `file.length + 1` passed by `load` exceeds
any possible number of iterations, since each successful iteration
consumes at least 12 bytes. -/
def loadLoop : Nat → AKVMEM → LoadResult
  | 0, st => .ok st
  | fuel + 1, st =>
    match process_record (st.file.drop st.cursor) with
    | .eofErr => .ok ⟨st.file, st.file.length, st.index⟩
    | .panicked => .panicked
    | .ok kv consumed =>
      loadLoop fuel
        ⟨st.file, st.cursor + consumed, indexInsert st.index kv.key st.cursor⟩

/-- `AKVMEM::load`: replay the file from the handle's current position
(which is 0 for a freshly opened store). -/
def AKVMEM.load (st : AKVMEM) : LoadResult := loadLoop (st.file.length + 1) st

/-! ## Frame codec (`server_helpers.rs`) -/

inductive Frame where
  | simple (s : ByteString)
  | error (s : ByteString)
  | integer (i : Nat)
  | bulk (b : ByteString)
  | null
  | array (elems : List Frame)
deriving Repr

inductive LineResult where
  | ok (line rest : ByteString)
  | err (rest : ByteString)
deriving DecidableEq, Repr

/-- `get_line`: consume bytes up to and including a CRLF terminator.  A CR
followed by a byte other than LF is an error with the cursor just past
that byte; a CR as the very last byte is pushed and the loop then runs out
of bytes, erroring with the cursor at the end, as does any buffer with no
terminator at all. -/
def get_line : ByteString → LineResult
  | [] => .err []
  | b :: rest =>
    if b = 13 then
      match rest with
      | [] => .err []
      | next :: rest2 => if next = 10 then .ok [] rest2 else .err rest2
    else
      match get_line rest with
      | .ok line r => .ok (b :: line) r
      | .err r => .err r

/-- Decimal parse shared by `parse::<u32>` and `parse::<u64>` on the lossy
string of a line: an optional leading `+`, then one or more ASCII digits,
rejecting any other byte and any value reaching `limit` (overflow). -/
def parseUInt (limit : Nat) (l : ByteString) : Option Nat :=
  let l2 := match l with
    | b :: t => if b = 43 then t else b :: t
    | [] => []
  if l2.isEmpty then none
  else if l2.all (fun b => decide (48 ≤ b ∧ b ≤ 57)) then
    let v := l2.foldl (fun a d => a * 10 + (d - 48)) 0
    if v < limit then some v else none
  else none

def parseU32 : ByteString → Option Nat := parseUInt 4294967296
def parseU64 : ByteString → Option Nat := parseUInt 18446744073709551616

inductive CheckResult where
  | ok (rest : ByteString)
  | err (rest : ByteString)
deriving DecidableEq, Repr

/-- The `'*'` arm of `Frame::check`: run `n` checks sequentially from
wherever each previous one left the cursor — also after a failure — and
succeed only when all of them succeeded. -/
def runChecks (chk : ByteString → CheckResult) :
    Nat → ByteString → Bool → CheckResult
  | 0, l, allOk => if allOk then .ok l else .err l
  | n + 1, l, allOk =>
    match chk l with
    | .ok r => runChecks chk n r allOk
    | .err r => runChecks chk n r false

/-- `Frame::check` with fuel bounding the array-nesting depth.  Entering a
nested element consumes at least the 4 header bytes of its enclosing
array, so the fuel `length + 1` supplied by `Frame.check` can never run
out; the fuel-exhaustion value is arbitrary. -/
def checkF : Nat → ByteString → CheckResult
  | 0, l => .err l
  | fuel + 1, l =>
    match l with
    | [] => .err []
    | b :: rest =>
      if b = 43 ∨ b = 58 ∨ b = 45 then
        match get_line rest with
        | .ok _ r => .ok r
        | .err r => .err r
      else if b = 36 then
        match get_line rest with
        | .err r => .err r
        | .ok line r =>
          if line = [45, 49] then .ok r
          else
            match parseU32 line with
            | none => .err r
            | some len =>
              match get_line r with
              | .err r2 => .err r2
              | .ok bytes r2 =>
                if bytes.length = len then .ok r2 else .err r2
      else if b = 42 then
        match get_line rest with
        | .err r => .err r
        | .ok line r =>
          if line = [45, 49] then .ok r
          else
            match parseU32 line with
            | none => .err r
            | some len => runChecks (fun l2 => checkF fuel l2) len r true
      else .err rest

def Frame.check (l : ByteString) : CheckResult := checkF (l.length + 1) l

inductive ParseResult where
  | ok (f : Frame) (rest : ByteString)
  | err (rest : ByteString)
  | panicked
deriving Repr

/-- The `'*'` arm of `Frame::parse`: parse `n` elements, aborting at the
first error (`?` propagation). -/
def runParses (prs : ByteString → ParseResult) :
    Nat → ByteString → List Frame → ParseResult
  | 0, l, acc => .ok (.array acc.reverse) l
  | n + 1, l, acc =>
    match prs l with
    | .ok f r => runParses prs n r (f :: acc)
    | .err r => .err r
    | .panicked => .panicked

/-- `Frame::parse` with the same fuel convention as `checkF`.  Unlike
`check` it starts with an unguarded `get_u8`, which panics on an empty
cursor; the `':'` arm additionally insists the line parse as a `u64`. -/
def parseF : Nat → ByteString → ParseResult
  | 0, l => .err l
  | fuel + 1, l =>
    match l with
    | [] => .panicked
    | b :: rest =>
      if b = 43 then
        match get_line rest with
        | .ok line r => .ok (.simple line) r
        | .err r => .err r
      else if b = 58 then
        match get_line rest with
        | .err r => .err r
        | .ok line r =>
          match parseU64 line with
          | some i => .ok (.integer i) r
          | none => .err r
      else if b = 36 then
        match get_line rest with
        | .err r => .err r
        | .ok line r =>
          if line = [45, 49] then .ok .null r
          else
            match parseU32 line with
            | none => .err r
            | some len =>
              match get_line r with
              | .err r2 => .err r2
              | .ok bytes r2 =>
                if bytes.length = len then .ok (.bulk bytes) r2 else .err r2
      else if b = 42 then
        match get_line rest with
        | .err r => .err r
        | .ok line r =>
          if line = [45, 49] then .ok .null r
          else
            match parseU32 line with
            | none => .err r
            | some len => runParses (fun l2 => parseF fuel l2) len r []
      else if b = 45 then
        match get_line rest with
        | .ok line r => .ok (.error line) r
        | .err r => .err r
      else .err rest

def Frame.parse (l : ByteString) : ParseResult := parseF (l.length + 1) l

/-- Most-significant-first decimal digits of a positive number, with fuel
(`fuel ≥ n` always suffices, since `n / 10 < n` for positive `n`). -/
def natDecAux : Nat → Nat → ByteString
  | 0, _ => []
  | _ + 1, 0 => []
  | fuel + 1, n + 1 => natDecAux fuel ((n + 1) / 10) ++ [(n + 1) % 10 + 48]

/-- Decimal rendering of `format!("{}", n)` as ASCII bytes. -/
def natDec (n : Nat) : ByteString :=
  if n = 0 then [48] else natDecAux n n

mutual

/-- `Connection::write_frame` as the byte sequence put on the wire.  Note
the source's quirks, reproduced here: an `Error` is written as `-`, CRLF,
then the message and another CRLF; `Null` is written as the NUL byte plus
CRLF; an `Array` gets a trailing CRLF after its serialized elements. -/
def write_frame : Frame → ByteString
  | .simple s => 43 :: (s ++ [13, 10])
  | .error e => 45 :: 13 :: 10 :: (e ++ [13, 10])
  | .integer i => 58 :: (natDec i ++ [13, 10])
  | .bulk b => 36 :: (natDec b.length ++ [13, 10] ++ b ++ [13, 10])
  | .null => [0, 13, 10]
  | .array vec => 42 :: (natDec vec.length ++ [13, 10]
      ++ writeElems vec ++ [13, 10])

def writeElems : List Frame → ByteString
  | [] => []
  | f :: t => write_frame f ++ writeElems t

end

/-! ## Command mapper (`server_helpers.rs`, `Command::from_frame`) -/

inductive Command where
  | get (key : ByteString)
  | set (key value : ByteString)
  | delete (key : ByteString)
  | update (key value : ByteString)
deriving DecidableEq, Repr

inductive CommandResult where
  | ok (c : Command)
  | errInvalidData
  | errInvalidInput
  | panicked
deriving DecidableEq, Repr

def getVerb : ByteString := [103, 101, 116]
def setVerb : ByteString := [115, 101, 116]
def deleteVerb : ByteString := [100, 101, 108, 101, 116, 101]
def updateVerb : ByteString := [117, 112, 100, 97, 116, 101]

/-- `Command::from_frame`.  `fr.get(0).unwrap()` panics on an empty array;
a recognized verb only requires elements 1 (and 2 for set/update) to be
Bulk — the total element count is never checked, so surplus elements are
ignored.  Unknown verbs and non-Array frames are `InvalidInput`; a missing
or non-Bulk required argument is `InvalidData`. -/
def Command.from_frame : Frame → CommandResult
  | .array fr =>
    match (fr[0]? : Option Frame) with
    | none => .panicked
    | some (.bulk b) =>
        if b = getVerb then
          match (fr[1]? : Option Frame) with
          | some (.bulk key) => .ok (.get key)
          | _ => .errInvalidData
        else if b = setVerb then
          match (fr[1]? : Option Frame) with
          | some (.bulk key) =>
            match (fr[2]? : Option Frame) with
            | some (.bulk value) => .ok (.set key value)
            | _ => .errInvalidData
          | _ => .errInvalidData
        else if b = deleteVerb then
          match (fr[1]? : Option Frame) with
          | some (.bulk key) => .ok (.delete key)
          | _ => .errInvalidData
        else if b = updateVerb then
          match (fr[1]? : Option Frame) with
          | some (.bulk key) =>
            match (fr[2]? : Option Frame) with
            | some (.bulk value) => .ok (.update key value)
            | _ => .errInvalidData
          | _ => .errInvalidData
        else .errInvalidInput
    | some _ => .errInvalidInput
  | _ => .errInvalidInput

/-! ## Connection handler (`akv_mem.rs`, `process`) -/

/-- One iteration of the handler loop for an already-parsed frame:
`Command::from_frame(&frame).unwrap()` panics the task (`none`) on any
`from_frame` error; otherwise the store operation runs under the mutex and
the reply frame is produced.  In this in-memory model the store's
insert/update/delete cannot fail, matching the fact that their only error
sources are real file I/O; a `get` I/O error is replied as an Error frame
whose textual payload (the Rust `err.to_string()`) is abstracted as the
empty byte string, since no property here depends on its contents. -/
def processFrame (fr : Frame) (st : AKVMEM) : Option (Frame × AKVMEM) :=
  match Command.from_frame fr with
  | .ok cmd =>
    match cmd with
    | .set key value => some (.simple [79, 75], st.insert key value)
    | .get key =>
      match st.get key with
      | .ok (some val) st1 => some (.bulk val, st1)
      | .ok none st1 => some (.null, st1)
      | .ioErr st1 => some (.error [], st1)
      | .panicked => none
    | .delete key => some (.simple [79, 75], st.delete key)
    | .update key value => some (.simple [79, 75], st.update key value)
  | _ => none

/-- The handler loop over a sequence of parsed frames, collecting the
reply frames; `none` when any iteration panics (the task dies and no
further frame is processed). -/
def runFrames : AKVMEM → List Frame → Option (List Frame × AKVMEM)
  | st, [] => some ([], st)
  | st, fr :: t =>
    match processFrame fr st with
    | none => none
    | some (reply, st2) =>
      match runFrames st2 t with
      | none => none
      | some (rs, st3) => some (reply :: rs, st3)

def getFrame (k : ByteString) : Frame := .array [.bulk getVerb, .bulk k]

def setFrame (k v : ByteString) : Frame :=
  .array [.bulk setVerb, .bulk k, .bulk v]

/-- A value long enough that the record holding it spans more than the
8 KiB `BufReader` read-ahead. -/
def padVal : ByteString := List.replicate 20001 55

/-- SET a <padVal>; SET b "2": a 20028-byte log of two records, the first
20014 bytes long. -/
def c2stateTwo : AKVMEM := ((openStore []).insert [97] padVal).insert [98] [50]

/-- The store after GET a: the reads covered the first 8 KiB fill plus a
buffer-bypassing exact tail, leaving the shared cursor at 20014 — record
b's offset, not end-of-file (20028).  The c2 theorem's first conjunct
proves this is exactly what `get` returns. -/
def c2stateThree : AKVMEM := ⟨c2stateTwo.file, 20014, c2stateTwo.index⟩

/-- The store after the subsequent SET c "3". -/
def c2stateFour : AKVMEM := c2stateThree.insert [99] [51]

/-- A key and a value whose lengths each fit the u32 header fields while
their sum reaches 2^32, so the record format can represent them but the
decoder's u32 length addition wraps. -/
def bigKey : ByteString := List.replicate 2147483648 7

def bigVal : ByteString := List.replicate 2147483648 9

/-! ## Theorems -/

/-- Claim C1: the claim says that after `delete(k)` the key is absent from
the index and `get(k) = None`.  The code violates this: `delete` removes
the key but then calls `insert` (not `insert_ignoring_index`), which
re-binds the key to the tombstone's offset, so `get` afterwards returns
`Some` of the empty value.  Evaluated at the failing input
insert [97] [98] then delete [97]: the index still holds the key (at the
tombstone offset 14) and `get` returns `Some []`. -/
theorem c1_delete_bug :
    indexLookup (((openStore []).insert [97] [98]).delete [97]).index [97]
      = some 14 ∧
    (((openStore []).insert [97] [98]).delete [97]).get [97] =
      .ok (some []) (((openStore []).insert [97] [98]).delete [97]) ∧
    some ([] : ByteString) ≠ (none : Option ByteString) :=
  ⟨by decide, by decide, by decide⟩

/-- Claim C3: the claim says an invalid command is replied to the client
as an Error frame and the connection continues.  The handler instead
calls `Command::from_frame(&frame).unwrap()`, so a `from_frame` error
panics the connection task: no reply frame is produced and no later frame
on the connection is processed.  Evaluated at the unknown verb "no". -/
theorem c3_invalid_command_panics :
    Command.from_frame (.array [.bulk [110, 111], .bulk [120]])
      = .errInvalidInput ∧
    processFrame (.array [.bulk [110, 111], .bulk [120]]) (openStore [])
      = none ∧
    runFrames (openStore [])
      [.array [.bulk [110, 111], .bulk [120]], getFrame [97]] = none :=
  ⟨rfl, rfl, rfl⟩

/-- Claim C4, counterexample: an Array with one element more than the
verb's arity is accepted (`from_frame` never checks the element count),
while the claim requires an invalid-input error for it. -/
theorem c4_extra_elements_accepted :
    Command.from_frame (.array [.bulk getVerb, .bulk [107], .bulk [120]])
      = .ok (.get [107]) ∧
    [Frame.bulk getVerb, .bulk [107], .bulk [120]].length ≠ 2 :=
  ⟨rfl, by decide⟩

/-- Claim C5, counterexample: `GET` of a missing key does reply with the
Null frame, but `write_frame` serializes Null as the three bytes
0x00 0x0D 0x0A, not as `$-1\x0d\x0a` as the claim states. -/
theorem c5_null_wire_bytes :
    runFrames (openStore []) [getFrame [107]] = some ([.null], openStore []) ∧
    write_frame .null = [0, 13, 10] ∧
    write_frame .null ≠ [36, 45, 49, 13, 10] :=
  ⟨rfl, rfl, by decide⟩

/-- Claim C6, counterexample: encode-then-parse is not the identity for
every variant.  A serialized Null is rejected by the parser; a serialized
non-empty Error parses as the empty Error with the message left
unconsumed; a serialized Array parses back correctly but leaves its
trailing CRLF unconsumed. -/
theorem c6_null_not_roundtrip :
    Frame.parse (write_frame .null) = .err [13, 10] ∧
    Frame.parse (write_frame (.error [120])) = .ok (.error []) [120, 13, 10] ∧
    Frame.parse (write_frame (.array [.integer 1]))
      = .ok (.array [.integer 1]) [13, 10] :=
  ⟨rfl, rfl, rfl⟩

/-- Claim C7, counterexample: the claim says an unexpected EOF mid-record
makes `load` return an I/O error.  Instead, a file ending in a truncated
record header (2 stray bytes after a valid record) loads successfully —
the mid-header `UnexpectedEof` is swallowed by the same `break` that ends
a clean replay — and a file whose final record payload is truncated
panics on the checksum mismatch rather than returning an error. -/
theorem c7_truncated_tail_no_error :
    (openStore (encodeRecord [97] [98] ++ [0, 0])).load =
      .ok ⟨encodeRecord [97] [98] ++ [0, 0], 16, [([97], 0)]⟩ ∧
    (openStore ((encodeRecord [97] [98]).take 13)).load = .panicked :=
  ⟨by decide, by decide⟩

/-- Claim C8, counterexample: `check` accepts any line after `':'` while
`parse` insists on a valid `u64`, so on `":a\x0d\x0a"` check succeeds
(consuming the whole buffer) but parse fails. -/
theorem c8_check_ok_parse_err :
    Frame.check [58, 97, 13, 10] = .ok [] ∧
    Frame.parse [58, 97, 13, 10] = .err [] :=
  ⟨by decide, rfl⟩

/-- Claim C10, counterexample: nothing rejects an empty key.  The command
mapper accepts `set` with an empty Bulk key, and `insert` then appends a
record whose key_len field is 0. -/
theorem c10_empty_key_record_written :
    Command.from_frame (.array [.bulk setVerb, .bulk [], .bulk [118]])
      = .ok (.set [] [118]) ∧
    ((openStore []).insert [] [118]).file = encodeRecord [] [118] ∧
    readU32 ((encodeRecord [] [118]).drop 4) = 0 :=
  ⟨rfl, rfl, by decide⟩

/-! ## Record-level lemmas -/

theorem crc32Round_lt (c : Nat) (h : c < 4294967296) :
    crc32Round c < 4294967296 := by
  unfold crc32Round
  split
  · have h1 : c / 2 < 2 ^ 32 := by omega
    have h2 : (0xEDB88320 : Nat) < 2 ^ 32 := by norm_num
    have := Nat.xor_lt_two_pow (n := 32) h1 h2
    omega
  · omega

theorem crc32Byte_lt (c b : Nat) (h : c < 4294967296) :
    crc32Byte c b < 4294967296 := by
  unfold crc32Byte
  have h0 : c ^^^ b % 256 < 4294967296 := by
    have h1 : c < 2 ^ 32 := by omega
    have h2 : b % 256 < 2 ^ 32 := by
      have := Nat.mod_lt b (y := 256) (by omega)
      omega
    have := Nat.xor_lt_two_pow (n := 32) h1 h2
    omega
  exact crc32Round_lt _ (crc32Round_lt _ (crc32Round_lt _ (crc32Round_lt _
    (crc32Round_lt _ (crc32Round_lt _ (crc32Round_lt _ (crc32Round_lt _ h0)))))))

theorem crc32_foldl_lt (l : ByteString) :
    ∀ c, c < 4294967296 → l.foldl crc32Byte c < 4294967296 := by
  induction l with
  | nil => intro c h; simpa using h
  | cons b t ih =>
    intro c h
    simpa using ih (crc32Byte c b) (crc32Byte_lt c b h)

theorem crc32_lt (data : ByteString) : crc32 data < 4294967296 := by
  unfold crc32
  have h1 : data.foldl crc32Byte 0xFFFFFFFF < 2 ^ 32 := by
    have := crc32_foldl_lt data 0xFFFFFFFF (by norm_num)
    omega
  have h2 : (0xFFFFFFFF : Nat) < 2 ^ 32 := by norm_num
  have := Nat.xor_lt_two_pow (n := 32) h1 h2
  omega

theorem readU32_u32le (n : Nat) (r : ByteString) :
    readU32 (u32le n ++ r) = n % 4294967296 := by
  simp only [u32le, readU32, List.cons_append, List.nil_append, List.getD,
    List.get?, Option.getD]
  omega

theorem encodeRecord_length (k v : ByteString) :
    (encodeRecord k v).length = 12 + (k.length + v.length) := by
  simp [encodeRecord, u32le]
  omega

/-- Decoding `encodeRecord k v` followed by arbitrary bytes succeeds and
consumes exactly the record, provided the lengths do not overflow the
`u32` header fields. -/
theorem process_record_encode (k v r : ByteString)
    (h : k.length + v.length < 4294967296) :
    process_record (encodeRecord k v ++ r)
      = .ok ⟨k, v⟩ (12 + (k.length + v.length)) := by
  have hassoc : encodeRecord k v ++ r
      = u32le (crc32 (k ++ v)) ++ (u32le k.length ++ (u32le v.length
          ++ ((k ++ v) ++ r))) := by
    simp [encodeRecord, List.append_assoc]
  have h0 : readU32 (encodeRecord k v ++ r) = crc32 (k ++ v) := by
    rw [hassoc, readU32_u32le, Nat.mod_eq_of_lt (crc32_lt _)]
  have hd4 : (encodeRecord k v ++ r).drop 4
      = u32le k.length ++ (u32le v.length ++ ((k ++ v) ++ r)) := by
    rw [hassoc]
    have : (4 : Nat) = (u32le (crc32 (k ++ v))).length := by simp [u32le]
    rw [this, List.drop_left]
  have h4 : readU32 ((encodeRecord k v ++ r).drop 4) = k.length := by
    rw [hd4, readU32_u32le, Nat.mod_eq_of_lt (by omega)]
  have hd8 : (encodeRecord k v ++ r).drop 8
      = u32le v.length ++ ((k ++ v) ++ r) := by
    rw [hassoc]
    have h44 : (8 : Nat)
        = (u32le (crc32 (k ++ v)) ++ u32le k.length).length := by simp [u32le]
    rw [← List.append_assoc, h44, List.drop_left]
  have h8 : readU32 ((encodeRecord k v ++ r).drop 8) = v.length := by
    rw [hd8, readU32_u32le, Nat.mod_eq_of_lt (by omega)]
  have hd12 : (encodeRecord k v ++ r).drop 12 = (k ++ v) ++ r := by
    rw [hassoc]
    have h12 : (12 : Nat) = (u32le (crc32 (k ++ v)) ++ (u32le k.length
        ++ u32le v.length)).length := by simp [u32le]
    rw [← List.append_assoc, ← List.append_assoc, List.append_assoc
      (u32le (crc32 (k ++ v))), h12, List.drop_left]
  have hlen : ¬ (encodeRecord k v ++ r).length < 12 := by
    simp [encodeRecord_length]
    omega
  have hmod : (k.length + v.length) % 4294967296 = k.length + v.length :=
    Nat.mod_eq_of_lt h
  have htake : ((k ++ v) ++ r).take (k.length + v.length) = k ++ v := by
    apply List.take_left'
    simp
  simp only [process_record, h0, h4, h8, hd12, hmod, htake]
  rw [if_neg hlen, if_neg (by simp), if_neg (by simp)]
  rw [List.take_left, List.drop_left]
  simp

/-! ## Load replay (spec-side descriptions and lemmas) -/

/-- A file that is a concatenation of valid records. -/
def concatRecords : List (ByteString × ByteString) → ByteString
  | [] => []
  | (k, v) :: t => encodeRecord k v ++ concatRecords t

/-- The index `load` accumulates while replaying `kvs` from `pos`. -/
def replayIndex : List (ByteString × ByteString) → Nat
    → List (ByteString × Nat) → List (ByteString × Nat)
  | [], _, idx => idx
  | (k, v) :: t, pos, idx =>
    replayIndex t (pos + (encodeRecord k v).length) (indexInsert idx k pos)

/-- Each record's key paired with its starting offset, in file order. -/
def recordOffsets : List (ByteString × ByteString) → Nat
    → List (ByteString × Nat)
  | [], _ => []
  | (k, v) :: t, pos =>
    (k, pos) :: recordOffsets t (pos + (encodeRecord k v).length)

/-- The offset of the last (final) record for `key` in a file laid out as
`concatRecords kvs`: the first match when scanning the records in reverse
order. -/
def lastOffset (kvs : List (ByteString × ByteString)) (key : ByteString) :
    Option Nat :=
  indexLookup (recordOffsets kvs 0).reverse key

theorem concatRecords_length_ge (kvs : List (ByteString × ByteString)) :
    kvs.length ≤ (concatRecords kvs).length := by
  induction kvs with
  | nil => simp [concatRecords]
  | cons p t ih =>
    obtain ⟨k, v⟩ := p
    simp only [concatRecords, List.length_cons, List.length_append,
      encodeRecord_length]
    omega

theorem loadLoop_concat (kvs : List (ByteString × ByteString)) :
    ∀ (fuel pos : Nat) (idx : List (ByteString × Nat)) (l extra : ByteString),
    (∀ p ∈ kvs, p.1.length + p.2.length < 4294967296) →
    extra.length < 12 →
    l.drop pos = concatRecords kvs ++ extra →
    kvs.length < fuel →
    loadLoop fuel ⟨l, pos, idx⟩ = .ok ⟨l, l.length, replayIndex kvs pos idx⟩ := by
  induction kvs with
  | nil =>
    intro fuel pos idx l extra _ hx hdrop hfuel
    obtain ⟨f, rfl⟩ : ∃ f, fuel = f + 1 := ⟨fuel - 1, by omega⟩
    simp only [loadLoop, hdrop, concatRecords, List.nil_append, replayIndex]
    rw [process_record, if_pos (by omega)]
  | cons p t ih =>
    intro fuel pos idx l extra hkv hx hdrop hfuel
    obtain ⟨k, v⟩ := p
    obtain ⟨f, rfl⟩ : ∃ f, fuel = f + 1 := ⟨fuel - 1, by omega⟩
    have hkv0 : k.length + v.length < 4294967296 := by
      have := hkv (k, v) (by simp)
      simpa using this
    have hpr : process_record (l.drop pos)
        = .ok ⟨k, v⟩ (12 + (k.length + v.length)) := by
      rw [hdrop]
      simp only [concatRecords, List.append_assoc]
      exact process_record_encode k v _ hkv0
    have hdd : (l.drop pos).drop (12 + (k.length + v.length))
        = l.drop (pos + (12 + (k.length + v.length))) := by
      rw [List.drop_drop]
    have hdrop2 : l.drop (pos + (12 + (k.length + v.length)))
        = concatRecords t ++ extra := by
      rw [← hdd, hdrop]
      simp only [concatRecords, List.append_assoc]
      have h12 : (12 + (k.length + v.length)) = (encodeRecord k v).length := by
        rw [encodeRecord_length]
      rw [h12, List.drop_left]
    have hrec := ih f (pos + (12 + (k.length + v.length)))
      (indexInsert idx k pos) l extra (fun p hp => hkv p (by simp [hp])) hx
      hdrop2 (by simpa using Nat.lt_of_succ_lt_succ hfuel)
    simp only [loadLoop, hpr]
    rw [hrec, show replayIndex ((k, v) :: t) pos idx
      = replayIndex t (pos + (encodeRecord k v).length) (indexInsert idx k pos)
      from rfl, encodeRecord_length]

/-! ## Index lookup lemmas -/

def optOr (a b : Option Nat) : Option Nat :=
  match a with
  | some x => some x
  | none => b

theorem optOr_none_right (a : Option Nat) : optOr a none = a := by
  cases a <;> rfl

theorem indexLookup_append (a b : List (ByteString × Nat))
    (key : ByteString) :
    indexLookup (a ++ b) key = optOr (indexLookup a key) (indexLookup b key) := by
  induction a with
  | nil => rfl
  | cons p t ih =>
    obtain ⟨k, v⟩ := p
    by_cases h : k = key
    · simp [indexLookup, h, optOr]
    · simp [indexLookup, h, ih]

theorem indexLookup_filter (idx : List (ByteString × Nat))
    (k key : ByteString) (h : key ≠ k) :
    indexLookup (idx.filter (fun p => decide (p.1 ≠ k))) key
      = indexLookup idx key := by
  induction idx with
  | nil => rfl
  | cons p t ih =>
    obtain ⟨k1, v1⟩ := p
    by_cases h1 : k1 = k
    · subst h1
      have hne : ¬ k1 = key := fun he => h (he ▸ rfl)
      simp only [decide_not] at ih
      simp [List.filter, indexLookup, ih, hne]
    · simp only [decide_not] at ih
      simp [List.filter, h1, indexLookup, ih]

theorem indexLookup_insert (idx : List (ByteString × Nat))
    (k key : ByteString) (v : Nat) :
    indexLookup (indexInsert idx k v) key
      = if k = key then some v else indexLookup idx key := by
  unfold indexInsert
  by_cases h : k = key
  · simp [indexLookup, h]
  · simp only [indexLookup, if_neg h]
    exact indexLookup_filter idx k key (fun he => h he.symm)

theorem replayIndex_lookup (kvs : List (ByteString × ByteString)) :
    ∀ (pos : Nat) (idx : List (ByteString × Nat)) (key : ByteString),
    indexLookup (replayIndex kvs pos idx) key
      = optOr (indexLookup (recordOffsets kvs pos).reverse key)
          (indexLookup idx key) := by
  induction kvs with
  | nil => intro pos idx key; rfl
  | cons p t ih =>
    intro pos idx key
    obtain ⟨k, v⟩ := p
    rw [show replayIndex ((k, v) :: t) pos idx
      = replayIndex t (pos + (encodeRecord k v).length) (indexInsert idx k pos)
      from rfl, ih]
    rw [show recordOffsets ((k, v) :: t) pos
      = (k, pos) :: recordOffsets t (pos + (encodeRecord k v).length)
      from rfl]
    rw [List.reverse_cons, indexLookup_append, indexLookup_insert]
    by_cases hk : k = key
    · rw [if_pos hk]
      rw [show indexLookup [(k, pos)] key = some pos by simp [indexLookup, hk]]
      cases indexLookup
        (recordOffsets t (pos + (encodeRecord k v).length)).reverse key <;>
        rfl
    · rw [if_neg hk]
      rw [show indexLookup [(k, pos)] key = none by simp [indexLookup, hk]]
      rw [optOr_none_right]

/-- Claim C9 (amended): `load` on a freshly opened store over a file
that is a concatenation of valid records completes successfully, and the
resulting index maps each key to the offset of its last record in the
file — later records overwrite earlier index entries — *provided* each
record's `key_len + val_len` sum stays below `2^32`.  The proviso is not
implied by the on-disk format (each length only has to fit its own u32
field) and is necessary: when the sum wraps, the decoder's u32 addition
underestimates the payload and `load` panics instead of completing — see
the counterexample. -/
theorem c9_load_replay_last_wins (kvs : List (ByteString × ByteString))
    (h : ∀ p ∈ kvs, p.1.length + p.2.length < 4294967296) :
    (openStore (concatRecords kvs)).load
      = .ok ⟨concatRecords kvs, (concatRecords kvs).length,
             replayIndex kvs 0 []⟩ ∧
    ∀ key, indexLookup (replayIndex kvs 0 []) key = lastOffset kvs key := by
  constructor
  · unfold AKVMEM.load openStore
    exact loadLoop_concat kvs ((concatRecords kvs).length + 1) 0 []
      (concatRecords kvs) [] h (by simp) (by simp)
      (by have := concatRecords_length_ge kvs; omega)
  · intro key
    rw [replayIndex_lookup, lastOffset]
    rw [show indexLookup [] key = none from rfl, optOr_none_right]

theorem c9_load_replay_witness :
    (openStore (concatRecords [([97], [49]), ([98], [50]), ([97], [51])])).load
      = .ok ⟨concatRecords [([97], [49]), ([98], [50]), ([97], [51])],
             (concatRecords [([97], [49]), ([98], [50]), ([97], [51])]).length,
             replayIndex [([97], [49]), ([98], [50]), ([97], [51])] 0 []⟩ ∧
    indexLookup (replayIndex [([97], [49]), ([98], [50]), ([97], [51])] 0 [])
        [97]
      = lastOffset [([97], [49]), ([98], [50]), ([97], [51])] [97] :=
  ⟨(c9_load_replay_last_wins [([97], [49]), ([98], [50]), ([97], [51])]
      (by decide)).1,
   (c9_load_replay_last_wins [([97], [49]), ([98], [50]), ([97], [51])]
      (by decide)).2 [97]⟩

/-- Claim C7 (amended): replay tolerates an unexpected EOF not only at a
record boundary but anywhere inside a truncated 12-byte header — both end
the replay with success, because every `read_u32` failure is the same
`UnexpectedEof` swallowed by `load`'s `break`.  (A truncated *payload*
instead panics on the checksum mismatch, as the counterexample shows;
`load` returns an I/O error in neither case.) -/
theorem c7_load_truncation (kvs : List (ByteString × ByteString))
    (extra : ByteString)
    (h : ∀ p ∈ kvs, p.1.length + p.2.length < 4294967296)
    (hx : extra.length < 12) :
    (openStore (concatRecords kvs ++ extra)).load
      = .ok ⟨concatRecords kvs ++ extra,
             (concatRecords kvs ++ extra).length, replayIndex kvs 0 []⟩ := by
  unfold AKVMEM.load openStore
  exact loadLoop_concat kvs ((concatRecords kvs ++ extra).length + 1) 0 []
    (concatRecords kvs ++ extra) extra h hx (by simp)
    (by have := concatRecords_length_ge kvs
        simp only [List.length_append]
        omega)

theorem c7_load_truncation_witness :
    (openStore (concatRecords [([97], [98])] ++ [0, 0])).load
      = .ok ⟨concatRecords [([97], [98])] ++ [0, 0],
             (concatRecords [([97], [98])] ++ [0, 0]).length,
             replayIndex [([97], [98])] 0 []⟩ :=
  c7_load_truncation [([97], [98])] [0, 0] (by decide) (by decide)

/-- Claim C5 (amended): for every store state in which the key is absent
from the index, the handler's reply to `GET key` is the Null frame, and
`write_frame` serializes Null as the three bytes 0x00 0x0D 0x0A — not as
the canonical RESP `$-1` CRLF encoding. -/
theorem c5_get_missing_replies_null (st : AKVMEM) (k : ByteString)
    (h : indexLookup st.index k = none) :
    processFrame (getFrame k) st = some (.null, st) ∧
    write_frame .null = [0, 13, 10] := by
  constructor
  · have hcmd : Command.from_frame (getFrame k) = .ok (.get k) := rfl
    simp only [processFrame, hcmd, AKVMEM.get, h]
  · rfl

theorem c5_get_missing_replies_null_witness :
    processFrame (getFrame [107]) (openStore []) = some (.null, openStore []) ∧
    write_frame .null = [0, 13, 10] :=
  c5_get_missing_replies_null (openStore []) [107] rfl

theorem encodeRecord_keylen (k v : ByteString) :
    readU32 ((encodeRecord k v).drop 4) = k.length % 4294967296 := by
  have hassoc : encodeRecord k v
      = u32le (crc32 (k ++ v))
          ++ (u32le k.length ++ (u32le v.length ++ (k ++ v))) := by
    simp [encodeRecord, List.append_assoc]
  rw [hassoc, show (4 : Nat) = (u32le (crc32 (k ++ v))).length
    from by simp [u32le], List.drop_left, readU32_u32le]

/-- Claim C10 (amended): every record appended by `insert` (hence also by
`update` and, with an empty value, by `delete`) carries a key_len field
equal to the key's length reduced mod 2^32, so a key_len = 0 record is
written exactly when the key is empty — which the command layer does not
prevent (see the counterexample).  For every non-empty key shorter than
2^32 bytes, the appended record's key_len field is nonzero. -/
theorem c10_keylen_nonzero (st : AKVMEM) (k v : ByteString)
    (hne : k ≠ []) (hlen : k.length < 4294967296) :
    (st.insert k v).file = st.file ++ encodeRecord k v ∧
    (st.delete k).file = st.file ++ encodeRecord k [] ∧
    readU32 ((encodeRecord k v).drop 4) = k.length ∧
    readU32 ((encodeRecord k v).drop 4) ≠ 0 := by
  refine ⟨rfl, rfl, ?_, ?_⟩
  · rw [encodeRecord_keylen, Nat.mod_eq_of_lt hlen]
  · rw [encodeRecord_keylen, Nat.mod_eq_of_lt hlen]
    have : k.length ≠ 0 := by
      cases k with
      | nil => exact absurd rfl hne
      | cons a t => simp
    exact this

theorem c10_keylen_witness :
    ((openStore []).insert [97] []).file
      = (openStore []).file ++ encodeRecord [97] [] ∧
    ((openStore []).delete [97]).file
      = (openStore []).file ++ encodeRecord [97] [] ∧
    readU32 ((encodeRecord [97] []).drop 4) = List.length [97] ∧
    readU32 ((encodeRecord [97] []).drop 4) ≠ 0 :=
  c10_keylen_nonzero (openStore []) [97] [] (by decide) (by decide)

/-- Claim C4 (amended): `from_frame` returns a command exactly when the
frame is an Array whose element 0 is a Bulk verb get/set/delete/update
and whose element 1 (and element 2 for set/update) is Bulk; the element
count is never checked beyond the accessed positions, so surplus elements
are ignored rather than rejected.  An empty Array panics
(`fr.get(0).unwrap()`) instead of producing an error frame. -/
theorem c4_from_frame_characterization :
    (∀ fr : Frame,
      (∃ c, Command.from_frame fr = .ok c) ↔
      (∃ l, fr = .array l ∧
        ((l[0]? = some (.bulk getVerb) ∧ ∃ k, l[1]? = some (.bulk k))
         ∨ (l[0]? = some (.bulk setVerb)
             ∧ ∃ k v, l[1]? = some (.bulk k) ∧ l[2]? = some (.bulk v))
         ∨ (l[0]? = some (.bulk deleteVerb) ∧ ∃ k, l[1]? = some (.bulk k))
         ∨ (l[0]? = some (.bulk updateVerb)
             ∧ ∃ k v, l[1]? = some (.bulk k) ∧ l[2]? = some (.bulk v))))) ∧
    Command.from_frame (.array []) = .panicked := by
  refine ⟨?_, rfl⟩
  intro fr
  cases fr with
  | simple s => simp [Command.from_frame]
  | error s => simp [Command.from_frame]
  | integer i => simp [Command.from_frame]
  | bulk b => simp [Command.from_frame]
  | null => simp [Command.from_frame]
  | array l =>
    constructor
    · rintro ⟨c, hc⟩
      refine ⟨l, rfl, ?_⟩
      rcases h0 : l[0]? with _ | f0
      · simp [Command.from_frame, h0] at hc
      · cases f0 with
        | bulk b =>
          simp only [Command.from_frame, h0] at hc
          by_cases hb1 : b = getVerb
          · subst hb1
            rw [if_pos rfl] at hc
            rcases h1 : l[1]? with _ | f1
            · simp [h1] at hc
            · cases f1 with
              | bulk b2 => exact Or.inl ⟨rfl, b2, rfl⟩
              | simple s => simp [h1] at hc
              | error s => simp [h1] at hc
              | integer i => simp [h1] at hc
              | null => simp [h1] at hc
              | array l3 => simp [h1] at hc
          · rw [if_neg hb1] at hc
            by_cases hb2 : b = setVerb
            · subst hb2
              rw [if_pos rfl] at hc
              rcases h1 : l[1]? with _ | f1
              · simp [h1] at hc
              · cases f1 with
                | bulk b2 =>
                  rcases h2 : l[2]? with _ | f2
                  · simp [h1, h2] at hc
                  · cases f2 with
                    | bulk b3 => exact Or.inr (Or.inl ⟨rfl, b2, b3, rfl, rfl⟩)
                    | simple s => simp [h1, h2] at hc
                    | error s => simp [h1, h2] at hc
                    | integer i => simp [h1, h2] at hc
                    | null => simp [h1, h2] at hc
                    | array l3 => simp [h1, h2] at hc
                | simple s => simp [h1] at hc
                | error s => simp [h1] at hc
                | integer i => simp [h1] at hc
                | null => simp [h1] at hc
                | array l3 => simp [h1] at hc
            · rw [if_neg hb2] at hc
              by_cases hb3 : b = deleteVerb
              · subst hb3
                rw [if_pos rfl] at hc
                rcases h1 : l[1]? with _ | f1
                · simp [h1] at hc
                · cases f1 with
                  | bulk b2 => exact Or.inr (Or.inr (Or.inl ⟨rfl, b2, rfl⟩))
                  | simple s => simp [h1] at hc
                  | error s => simp [h1] at hc
                  | integer i => simp [h1] at hc
                  | null => simp [h1] at hc
                  | array l3 => simp [h1] at hc
              · rw [if_neg hb3] at hc
                by_cases hb4 : b = updateVerb
                · subst hb4
                  rw [if_pos rfl] at hc
                  rcases h1 : l[1]? with _ | f1
                  · simp [h1] at hc
                  · cases f1 with
                    | bulk b2 =>
                      rcases h2 : l[2]? with _ | f2
                      · simp [h1, h2] at hc
                      · cases f2 with
                        | bulk b3 =>
                          exact Or.inr (Or.inr (Or.inr ⟨rfl, b2, b3, rfl, rfl⟩))
                        | simple s => simp [h1, h2] at hc
                        | error s => simp [h1, h2] at hc
                        | integer i => simp [h1, h2] at hc
                        | null => simp [h1, h2] at hc
                        | array l3 => simp [h1, h2] at hc
                    | simple s => simp [h1] at hc
                    | error s => simp [h1] at hc
                    | integer i => simp [h1] at hc
                    | null => simp [h1] at hc
                    | array l3 => simp [h1] at hc
                · rw [if_neg hb4] at hc
                  exact absurd hc (by simp)
        | simple s => simp [Command.from_frame, h0] at hc
        | error s => simp [Command.from_frame, h0] at hc
        | integer i => simp [Command.from_frame, h0] at hc
        | null => simp [Command.from_frame, h0] at hc
        | array l2 => simp [Command.from_frame, h0] at hc
    · rintro ⟨l2, hl, hshape⟩
      cases hl
      rcases hshape with ⟨h0, k, h1⟩ | ⟨h0, k, v, h1, h2⟩
        | ⟨h0, k, h1⟩ | ⟨h0, k, v, h1, h2⟩
      · exact ⟨.get k, by
          simp [Command.from_frame, h0, h1, getVerb, setVerb, deleteVerb,
            updateVerb]⟩
      · exact ⟨.set k v, by
          simp [Command.from_frame, h0, h1, h2, getVerb, setVerb, deleteVerb,
            updateVerb]⟩
      · exact ⟨.delete k, by
          simp [Command.from_frame, h0, h1, getVerb, setVerb, deleteVerb,
            updateVerb]⟩
      · exact ⟨.update k v, by
          simp [Command.from_frame, h0, h1, h2, getVerb, setVerb, deleteVerb,
            updateVerb]⟩

/-! ## Decimal rendering and parsing lemmas -/

theorem natDecAux_mem :
    ∀ fuel n b, b ∈ natDecAux fuel n → 48 ≤ b ∧ b ≤ 57 := by
  intro fuel
  induction fuel with
  | zero => intro n b h; simp [natDecAux] at h
  | succ fuel ih =>
    intro n b h
    cases n with
    | zero => simp [natDecAux] at h
    | succ m =>
      simp only [natDecAux, List.mem_append, List.mem_singleton] at h
      rcases h with h | h
      · exact ih _ b h
      · subst h
        have : (m + 1) % 10 < 10 := Nat.mod_lt _ (by omega)
        omega

theorem natDec_mem (n b : Nat) (h : b ∈ natDec n) : 48 ≤ b ∧ b ≤ 57 := by
  unfold natDec at h
  split at h
  · simp at h
    omega
  · exact natDecAux_mem n n b h

theorem natDec_no_cr (n : Nat) : 13 ∉ natDec n := by
  intro h
  have := natDec_mem n 13 h
  omega

theorem natDec_ne_neg_one (n : Nat) : natDec n ≠ [45, 49] := by
  intro h
  have : (45 : Nat) ∈ natDec n := by rw [h]; simp
  have := natDec_mem n 45 this
  omega

theorem natDecAux_ne_nil (fuel n : Nat) (hf : 0 < fuel) (hn : 0 < n) :
    natDecAux fuel n ≠ [] := by
  cases fuel with
  | zero => omega
  | succ f =>
    cases n with
    | zero => omega
    | succ m => simp [natDecAux]

theorem natDecAux_foldl :
    ∀ fuel n acc, n ≤ fuel →
      (natDecAux fuel n).foldl (fun a d => a * 10 + (d - 48)) acc
        = acc * 10 ^ (natDecAux fuel n).length + n := by
  intro fuel
  induction fuel with
  | zero =>
    intro n acc h
    have : n = 0 := by omega
    subst this
    simp [natDecAux]
  | succ fuel ih =>
    intro n acc h
    cases n with
    | zero => simp [natDecAux]
    | succ m =>
      have hq : (m + 1) / 10 ≤ fuel := by
        have := Nat.div_lt_self (show 0 < m + 1 by omega) (show 1 < 10 by omega)
        omega
      simp only [natDecAux, List.foldl_append, List.foldl_cons, List.foldl_nil,
        List.length_append, List.length_cons, List.length_nil]
      rw [ih _ acc hq]
      have hmod : (m + 1) % 10 + 48 - 48 = (m + 1) % 10 := by omega
      rw [hmod]
      have hdm := Nat.div_add_mod (m + 1) 10
      ring_nf
      omega

theorem parseUInt_natDec (limit n : Nat) (h : n < limit) :
    parseUInt limit (natDec n) = some n := by
  rcases hne : natDec n with _ | ⟨b, t⟩
  · exfalso
    unfold natDec at hne
    split at hne
    · simp at hne
    · exact natDecAux_ne_nil n n (by omega) (by omega) hne
  · have hb : 48 ≤ b ∧ b ≤ 57 := natDec_mem n b (by rw [hne]; simp)
    have hb43 : ¬ b = 43 := by omega
    have hall : ∀ x ∈ b :: t, 48 ≤ x ∧ x ≤ 57 := by
      intro x hx
      exact natDec_mem n x (by rw [hne]; exact hx)
    have hfold : (b :: t).foldl (fun a d => a * 10 + (d - 48)) 0 = n := by
      rw [← hne]
      unfold natDec
      split
      · simp
        omega
      · rw [natDecAux_foldl n n 0 (le_refl n)]
        simp
    have hallb : ((b :: t).all (fun x => decide (48 ≤ x ∧ x ≤ 57))) = true := by
      rw [List.all_eq_true]
      intro x hx
      exact decide_eq_true (hall x hx)
    simp only [parseUInt, if_neg hb43]
    rw [if_neg (by simp), if_pos hallb, hfold, if_pos h]

/-! ## get_line and frame round-trip lemmas -/

theorem get_line_append (s rest : ByteString) (h : 13 ∉ s) :
    get_line (s ++ 13 :: 10 :: rest) = .ok s rest := by
  induction s with
  | nil => rfl
  | cons b t ih =>
    have hb : ¬ b = 13 := fun he => h (by simp [he])
    have ht : 13 ∉ t := fun hm => h (by simp [hm])
    simp only [List.cons_append, get_line, if_neg hb]
    rw [show t ++ 13 :: 10 :: rest = t.append (13 :: 10 :: rest) from rfl] at ih
    rw [ih ht]

theorem parseF_simple_enc (m : Nat) (s : ByteString) (h : 13 ∉ s) :
    parseF (m + 1) (43 :: (s ++ [13, 10])) = .ok (.simple s) [] := by
  have hgl : get_line (s ++ [13, 10]) = .ok s [] := get_line_append s [] h
  simp only [parseF, hgl]
  simp

theorem parseF_integer_enc (m i : Nat) (h : i < 18446744073709551616) :
    parseF (m + 1) (58 :: (natDec i ++ [13, 10])) = .ok (.integer i) [] := by
  have hgl : get_line (natDec i ++ [13, 10]) = .ok (natDec i) [] :=
    get_line_append _ [] (natDec_no_cr i)
  have hp : parseU64 (natDec i) = some i := parseUInt_natDec _ i h
  simp only [parseF, hgl, hp]
  simp

theorem parseF_bulk_enc (m : Nat) (b : ByteString) (hcr : 13 ∉ b)
    (hlen : b.length < 4294967296) :
    parseF (m + 1) (36 :: (natDec b.length ++ [13, 10] ++ b ++ [13, 10]))
      = .ok (.bulk b) [] := by
  have hassoc : natDec b.length ++ [13, 10] ++ b ++ [13, 10]
      = natDec b.length ++ (13 :: 10 :: (b ++ [13, 10])) := by simp
  have hgl1 : get_line (natDec b.length ++ (13 :: 10 :: (b ++ [13, 10])))
      = .ok (natDec b.length) (b ++ [13, 10]) :=
    get_line_append _ _ (natDec_no_cr _)
  have hgl2 : get_line (b ++ [13, 10]) = .ok b [] := get_line_append b [] hcr
  have hp : parseU32 (natDec b.length) = some b.length :=
    parseUInt_natDec _ _ hlen
  rw [show (36 :: (natDec b.length ++ [13, 10] ++ b ++ [13, 10]))
    = 36 :: (natDec b.length ++ (13 :: 10 :: (b ++ [13, 10])))
    from by rw [hassoc]]
  simp only [parseF, hgl1, hgl2, hp]
  simp [natDec_ne_neg_one]

/-- Claim C6 (amended): encode-then-parse yields the original frame and
consumes exactly the produced bytes for the Simple, Integer and Bulk
variants, under the conditions the encoding grammar imposes: no CR byte
in a Simple text or Bulk payload, an Integer value representable as u64,
and a Bulk length representable as u32.  (Null, Error and Array
encodings do not round-trip; see the counterexample.) -/
theorem c6_roundtrip_simple_integer_bulk :
    (∀ s : ByteString, 13 ∉ s →
      Frame.parse (write_frame (.simple s)) = .ok (.simple s) []) ∧
    (∀ i : Nat, i < 18446744073709551616 →
      Frame.parse (write_frame (.integer i)) = .ok (.integer i) []) ∧
    (∀ b : ByteString, 13 ∉ b → b.length < 4294967296 →
      Frame.parse (write_frame (.bulk b)) = .ok (.bulk b) []) := by
  refine ⟨fun s h => ?_, fun i h => ?_, fun b hcr hlen => ?_⟩
  · exact parseF_simple_enc _ s h
  · exact parseF_integer_enc _ i h
  · exact parseF_bulk_enc _ b hcr hlen

theorem c6_roundtrip_witness :
    Frame.parse (write_frame (.simple [97])) = .ok (.simple [97]) [] ∧
    Frame.parse (write_frame (.integer 107)) = .ok (.integer 107) [] ∧
    Frame.parse (write_frame (.bulk [98, 99])) = .ok (.bulk [98, 99]) [] :=
  ⟨c6_roundtrip_simple_integer_bulk.1 [97] (by decide),
   c6_roundtrip_simple_integer_bulk.2.1 107 (by decide),
   c6_roundtrip_simple_integer_bulk.2.2 [98, 99] (by decide) (by decide)⟩

/-! ## check/parse agreement -/

theorem runChecks_never_ok_false (chk : ByteString → CheckResult) :
    ∀ n l rest, runChecks chk n l false ≠ .ok rest := by
  intro n
  induction n with
  | zero => intro l rest h; simp [runChecks] at h
  | succ n ih =>
    intro l rest h
    simp only [runChecks] at h
    cases hc : chk l with
    | ok r => rw [hc] at h; exact ih r rest h
    | err r => rw [hc] at h; exact ih r rest h

theorem runs_agree (chk : ByteString → CheckResult)
    (prs : ByteString → ParseResult)
    (hag : ∀ l rest, chk l = .ok rest →
      prs l ≠ .panicked ∧ ∀ f r2, prs l = .ok f r2 → r2 = rest) :
    ∀ n l acc rest, runChecks chk n l true = .ok rest →
      runParses prs n l acc ≠ .panicked ∧
      ∀ fr r2, runParses prs n l acc = .ok fr r2 → r2 = rest := by
  intro n
  induction n with
  | zero =>
    intro l acc rest h
    have h2 : CheckResult.ok l = CheckResult.ok rest := h
    injection h2 with h2
    subst h2
    constructor
    · simp [runParses]
    · intro fr r2 hr
      have hr2 : ParseResult.ok (.array acc.reverse) l = ParseResult.ok fr r2 := hr
      injection hr2 with _ hr2
      exact hr2.symm
  | succ n ih =>
    intro l acc rest h
    simp only [runChecks] at h
    cases hc : chk l with
    | err r =>
      rw [hc] at h
      exact absurd h (runChecks_never_ok_false chk n r rest)
    | ok r =>
      rw [hc] at h
      have hp := hag l r hc
      simp only [runParses]
      cases hpr : prs l with
      | panicked => exact absurd hpr hp.1
      | err r2 =>
        exact ⟨by simp, fun fr r2b hr => by simp at hr⟩
      | ok f r2 =>
        have hr2 : r2 = r := hp.2 f r2 hpr
        subst hr2
        exact ih _ (f :: acc) rest h

theorem checkF_parseF_agree :
    ∀ fuel l rest, checkF fuel l = .ok rest →
      parseF fuel l ≠ .panicked ∧
      ∀ f r2, parseF fuel l = .ok f r2 → r2 = rest := by
  intro fuel
  induction fuel with
  | zero => intro l rest h; simp [checkF] at h
  | succ fuel ih =>
    intro l rest h
    cases l with
    | nil => simp [checkF] at h
    | cons b t =>
      simp only [checkF] at h
      by_cases hb1 : b = 43 ∨ b = 58 ∨ b = 45
      · rw [if_pos hb1] at h
        cases hgl : get_line t with
        | err r => simp [hgl] at h
        | ok line r =>
          simp only [hgl] at h
          have hr : CheckResult.ok r = CheckResult.ok rest := h
          injection hr with hr
          subst hr
          rcases hb1 with hb | hb | hb <;> subst hb
          · have hps : parseF (fuel + 1) (43 :: t) = .ok (.simple line) r := by
              simp [parseF, hgl]
            rw [hps]
            exact ⟨by simp, fun f r2 hp => by
              injection hp with _ hp; exact hp.symm⟩
          · cases hu : parseU64 line with
            | some i =>
              have hps : parseF (fuel + 1) (58 :: t) = .ok (.integer i) r := by
                simp [parseF, hgl, hu]
              rw [hps]
              exact ⟨by simp, fun f r2 hp => by
                injection hp with _ hp; exact hp.symm⟩
            | none =>
              have hps : parseF (fuel + 1) (58 :: t) = .err r := by
                simp [parseF, hgl, hu]
              rw [hps]
              exact ⟨by simp, fun f r2 hp => by simp at hp⟩
          · have hps : parseF (fuel + 1) (45 :: t) = .ok (.error line) r := by
              simp [parseF, hgl]
            rw [hps]
            exact ⟨by simp, fun f r2 hp => by
              injection hp with _ hp; exact hp.symm⟩
      · rw [if_neg hb1] at h
        by_cases hb2 : b = 36
        · subst hb2
          rw [if_pos rfl] at h
          cases hgl : get_line t with
          | err r => simp [hgl] at h
          | ok line r =>
            simp only [hgl] at h
            by_cases hl1 : line = [45, 49]
            · rw [if_pos hl1] at h
              have hr : CheckResult.ok r = CheckResult.ok rest := h
              injection hr with hr
              subst hr
              have hps : parseF (fuel + 1) (36 :: t) = .ok .null r := by
                simp [parseF, hgl, hl1]
              rw [hps]
              exact ⟨by simp, fun f r2 hp => by
                injection hp with _ hp; exact hp.symm⟩
            · rw [if_neg hl1] at h
              cases hu : parseU32 line with
              | none => simp [hu] at h
              | some len =>
                simp only [hu] at h
                cases hgl2 : get_line r with
                | err r2 => simp [hgl2] at h
                | ok bytes r2 =>
                  simp only [hgl2] at h
                  by_cases hbl : bytes.length = len
                  · rw [if_pos hbl] at h
                    have hr : CheckResult.ok r2 = CheckResult.ok rest := h
                    injection hr with hr
                    subst hr
                    have hps : parseF (fuel + 1) (36 :: t)
                        = .ok (.bulk bytes) r2 := by
                      simp [parseF, hgl, hl1, hu, hgl2, hbl]
                    rw [hps]
                    exact ⟨by simp, fun f r2b hp => by
                      injection hp with _ hp; exact hp.symm⟩
                  · rw [if_neg hbl] at h
                    simp at h
        · rw [if_neg hb2] at h
          by_cases hb3 : b = 42
          · subst hb3
            rw [if_pos rfl] at h
            cases hgl : get_line t with
            | err r => simp [hgl] at h
            | ok line r =>
              simp only [hgl] at h
              by_cases hl1 : line = [45, 49]
              · rw [if_pos hl1] at h
                have hr : CheckResult.ok r = CheckResult.ok rest := h
                injection hr with hr
                subst hr
                have hps : parseF (fuel + 1) (42 :: t) = .ok .null r := by
                  simp [parseF, hgl, hl1]
                rw [hps]
                exact ⟨by simp, fun f r2 hp => by
                  injection hp with _ hp; exact hp.symm⟩
              · rw [if_neg hl1] at h
                cases hu : parseU32 line with
                | none => simp [hu] at h
                | some len =>
                  simp only [hu] at h
                  have hps : parseF (fuel + 1) (42 :: t)
                      = runParses (fun l2 => parseF fuel l2) len r [] := by
                    simp [parseF, hgl, hl1, hu]
                  rw [hps]
                  exact runs_agree (fun l2 => checkF fuel l2)
                    (fun l2 => parseF fuel l2)
                    (fun l3 rest3 hok => ih l3 rest3 hok) len r [] rest h
          · rw [if_neg hb3] at h
            simp at h

/-- Claim C8 (amended): whenever `Frame::check` succeeds on a buffer,
`Frame::parse` on the same bytes from position 0 does not panic and,
whenever it succeeds, leaves exactly the same unconsumed rest (hence
consumes the same number of bytes).  `parse` may however fail where
`check` succeeded — `check` accepts any CRLF-terminated line after `':'`
while `parse` requires a valid `u64` decimal there (see the
counterexample). -/
theorem c8_check_parse_agreement (l rest : ByteString)
    (h : Frame.check l = .ok rest) :
    Frame.parse l ≠ .panicked ∧
    ∀ f r2, Frame.parse l = .ok f r2 → r2 = rest :=
  checkF_parseF_agree (l.length + 1) l rest h

theorem c8_check_parse_agreement_witness :
    Frame.parse [43, 13, 10] ≠ .panicked :=
  (c8_check_parse_agreement [43, 13, 10] [] (by decide)).1

/-! ## C2: stale offset capture in insert_ignoring_index -/

theorem padVal_length : padVal.length = 20001 := by
  rw [show padVal = List.replicate 20001 55 from rfl, List.length_replicate]

theorem encA_length : (encodeRecord [97] padVal).length = 20014 := by
  rw [encodeRecord_length, padVal_length]
  norm_num

theorem c2_file_two : c2stateTwo.file
    = encodeRecord [97] padVal ++ encodeRecord [98] [50] := by
  show ([] ++ encodeRecord [97] padVal) ++ encodeRecord [98] [50] = _
  rw [List.nil_append]

theorem c2_len_two : c2stateTwo.file.length = 20028 := by
  rw [c2_file_two, List.length_append, encA_length, encodeRecord_length]
  norm_num

theorem get_eq_of_lookup (st : AKVMEM) (key : ByteString) (pos : Nat)
    (kv : KeyValuePair) (consumed : Nat)
    (hl : indexLookup st.index key = some pos)
    (hp : process_record (st.file.drop pos) = .ok kv consumed) :
    st.get key = .ok (some kv.value)
      ⟨st.file, bufCursorAfter st.file.length pos consumed, st.index⟩ := by
  simp only [AKVMEM.get, hl, get_at, hp]

/-- Claim C2: the claim says `insert` stores the offset at which the new
record's first byte was written.  The code stores
`seek(SeekFrom::Current(0))` captured *before* the seek to end-of-file,
which is stale whenever the previous operation's reads stopped short of
end-of-file.  On a 20028-byte log whose first record is 20014 bytes long,
`GET a`'s reads cover the first 8 KiB fill and then bypass the buffer
with exact reads, leaving the shared cursor at 20014 — record b's offset.
The following `SET c "3"` therefore writes its record at 20028 but stores
offset 20014 in the index, and `GET c` returns record b's value "2"
instead of the just-written "3".  (On a log that fits inside the 8 KiB
read-ahead the cursor would have been left at end-of-file and the offset
would be correct, which is why the record must outgrow the buffer.) -/
theorem c2_offset_bug :
    c2stateTwo.get [97] = .ok (some padVal) c2stateThree ∧
    c2stateTwo.file.length = 20028 ∧
    indexLookup c2stateFour.index [99] = some 20014 ∧
    c2stateFour.file.drop 20028 = encodeRecord [99] [51] ∧
    c2stateFour.get [99]
      = .ok (some [50]) ⟨c2stateFour.file, 20042, c2stateFour.index⟩ ∧
    (some [50] : Option ByteString) ≠ some [51] := by
  have hlook97 : indexLookup c2stateTwo.index [97] = some 0 := rfl
  have hdec : process_record (c2stateTwo.file.drop 0)
      = .ok ⟨[97], padVal⟩ 20014 := by
    rw [List.drop_zero, c2_file_two]
    have hpe := process_record_encode [97] padVal (encodeRecord [98] [50])
      (by rw [padVal_length]; norm_num)
    rw [hpe, padVal_length]
    norm_num
  have hget97 := get_eq_of_lookup c2stateTwo [97] 0 ⟨[97], padVal⟩ 20014
    hlook97 hdec
  have hcur97 : bufCursorAfter c2stateTwo.file.length 0 20014 = 20014 := by
    rw [c2_len_two]
    decide
  have hlook99 : indexLookup c2stateFour.index [99] = some 20014 := rfl
  have hfile4 : c2stateFour.file
      = c2stateTwo.file ++ encodeRecord [99] [51] := rfl
  have hlen4 : c2stateFour.file.length = 20042 := by
    rw [hfile4, List.length_append, c2_len_two, encodeRecord_length]
    norm_num
  have hdrop28 : c2stateFour.file.drop 20028 = encodeRecord [99] [51] := by
    rw [hfile4, ← c2_len_two, List.drop_left]
  have hdrop14 : c2stateFour.file.drop 20014
      = encodeRecord [98] [50] ++ encodeRecord [99] [51] := by
    rw [hfile4, c2_file_two, List.append_assoc, ← encA_length,
      List.drop_left]
  have hdec99 : process_record (c2stateFour.file.drop 20014)
      = .ok ⟨[98], [50]⟩ 14 := by
    rw [hdrop14]
    have hpe := process_record_encode [98] [50] (encodeRecord [99] [51])
      (by norm_num)
    rw [hpe]
    norm_num
  have hget99 := get_eq_of_lookup c2stateFour [99] 20014 ⟨[98], [50]⟩ 14
    hlook99 hdec99
  have hcur99 : bufCursorAfter c2stateFour.file.length 20014 14 = 20042 := by
    rw [hlen4]
    decide
  refine ⟨?_, c2_len_two, hlook99, hdrop28, ?_, by decide⟩
  · rw [hget97, hcur97]
    rfl
  · rw [hget99, hcur99]

/-! ## C9 counterexample: u32 length-sum overflow -/

theorem encodeRecord_vallen (k v : ByteString) :
    readU32 ((encodeRecord k v).drop 8) = v.length % 4294967296 := by
  have hassoc : encodeRecord k v
      = (u32le (crc32 (k ++ v)) ++ u32le k.length)
          ++ (u32le v.length ++ (k ++ v)) := by
    simp [encodeRecord, List.append_assoc]
  rw [hassoc, show (8 : Nat)
    = (u32le (crc32 (k ++ v)) ++ u32le k.length).length
    from by simp [u32le], List.drop_left, readU32_u32le]

/-- Decoding a record whose u32 length fields are stored faithfully but
whose `key_len + val_len` wraps below `key_len` panics: the wrapped
`data_len` makes the payload read come up short, and the record is then
rejected either by the checksum mismatch or — should the checksums
coincide — by the out-of-range `split_off`. -/
theorem process_record_overflow (k v r : ByteString)
    (hk : k.length < 4294967296) (hv : v.length < 4294967296)
    (hwrap : (k.length + v.length) % 4294967296 < k.length) :
    process_record (encodeRecord k v ++ r) = .panicked := by
  have hassoc : encodeRecord k v ++ r
      = u32le (crc32 (k ++ v)) ++ (u32le k.length ++ (u32le v.length
          ++ ((k ++ v) ++ r))) := by
    simp [encodeRecord, List.append_assoc]
  have hd4 : (encodeRecord k v ++ r).drop 4
      = u32le k.length ++ (u32le v.length ++ ((k ++ v) ++ r)) := by
    rw [hassoc]
    have h44 : (4 : Nat) = (u32le (crc32 (k ++ v))).length := by simp [u32le]
    rw [h44, List.drop_left]
  have h4 : readU32 ((encodeRecord k v ++ r).drop 4) = k.length := by
    rw [hd4, readU32_u32le, Nat.mod_eq_of_lt hk]
  have hd8 : (encodeRecord k v ++ r).drop 8
      = u32le v.length ++ ((k ++ v) ++ r) := by
    rw [hassoc]
    have h88 : (8 : Nat)
        = (u32le (crc32 (k ++ v)) ++ u32le k.length).length := by
      simp [u32le]
    rw [← List.append_assoc, h88, List.drop_left]
  have h8 : readU32 ((encodeRecord k v ++ r).drop 8) = v.length := by
    rw [hd8, readU32_u32le, Nat.mod_eq_of_lt hv]
  have hd12 : (encodeRecord k v ++ r).drop 12 = (k ++ v) ++ r := by
    rw [hassoc]
    have h12 : (12 : Nat) = (u32le (crc32 (k ++ v)) ++ (u32le k.length
        ++ u32le v.length)).length := by simp [u32le]
    rw [← List.append_assoc, ← List.append_assoc, List.append_assoc
      (u32le (crc32 (k ++ v))), h12, List.drop_left]
  have hlen : ¬ (encodeRecord k v ++ r).length < 12 := by
    simp [encodeRecord_length]
    omega
  have hdlen : ((((k ++ v) ++ r)).take
        ((k.length + v.length) % 4294967296)).length
      = (k.length + v.length) % 4294967296 := by
    rw [List.length_take]
    simp only [List.length_append]
    omega
  simp only [process_record, h4, h8, hd12]
  rw [if_neg hlen]
  by_cases hc : crc32 (((k ++ v) ++ r).take ((k.length + v.length)
      % 4294967296)) = readU32 (encodeRecord k v ++ r)
  · rw [if_neg (not_not_intro hc), if_pos (by rw [hdlen]; omega)]
  · rw [if_pos hc]

/-- One `load` iteration over a record decode that panics. -/
theorem loadLoop_succ_panic (fuel : Nat) (st : AKVMEM)
    (h : process_record (st.file.drop st.cursor) = .panicked) :
    loadLoop (fuel + 1) st = .panicked := by
  simp only [loadLoop, h]

theorem bigKey_length : bigKey.length = 2147483648 := by
  rw [show bigKey = List.replicate 2147483648 7 from rfl,
    List.length_replicate]

theorem bigVal_length : bigVal.length = 2147483648 := by
  rw [show bigVal = List.replicate 2147483648 9 from rfl,
    List.length_replicate]

/-- Claim C9, counterexample: a file holding a single record whose key
and value lengths each fit their u32 header fields — so the file is a
concatenation of valid records per the on-disk format, as the second and
third conjuncts document — on which `load` panics instead of completing:
the decoder's u32 addition `key_len + val_len` wraps to 0 and the record
is rejected by a panic. -/
theorem c9_overflow_panics :
    (openStore (concatRecords [(bigKey, bigVal)])).load = .panicked ∧
    readU32 ((encodeRecord bigKey bigVal).drop 4) = bigKey.length ∧
    readU32 ((encodeRecord bigKey bigVal).drop 8) = bigVal.length ∧
    bigKey.length < 4294967296 ∧ bigVal.length < 4294967296 := by
  have hk : bigKey.length < 4294967296 := by
    rw [bigKey_length]
    norm_num
  have hv : bigVal.length < 4294967296 := by
    rw [bigVal_length]
    norm_num
  refine ⟨?_,
    by rw [encodeRecord_keylen, Nat.mod_eq_of_lt hk],
    by rw [encodeRecord_vallen, Nat.mod_eq_of_lt hv], hk, hv⟩
  refine loadLoop_succ_panic _ _ ?_
  show process_record ((concatRecords [(bigKey, bigVal)]).drop 0) = .panicked
  rw [List.drop_zero,
    show concatRecords [(bigKey, bigVal)] = encodeRecord bigKey bigVal ++ []
    from rfl]
  exact process_record_overflow bigKey bigVal [] hk hv
    (by rw [bigKey_length, bigVal_length]; norm_num)
